import Mathlib

/-!
Shallow embedding of `src/xpense.py` (a CLI expense tracker with CSV storage
and per-category budgets), together with theorems settling the specification
claims about it.

Conventions of the embedding:
* Python `datetime.date` becomes the `Date` structure below with explicit
  calendar arithmetic (the only date arithmetic the source performs is
  `replace(day=1)`, `replace(month=m+1, day=1)` and `- timedelta(days=1)`).
* Monetary amounts (`float` in the source) are embedded as exact rationals ℚ;
  the binary floating-point nature of Python floats is outside this embedding
  and is discussed where a claim depends on it.
* Python dicts (budget mapping, `summarize` totals) become association lists
  in insertion order with `List.lookup`; `dict.get(k, 0.0)` becomes
  `(l.lookup k).getD 0`.
* Python truthiness tests on an `Optional` value (`if start`, `if category`)
  are embedded faithfully: `None` and the empty string are falsy, every
  `date` object is truthy.
-/

namespace Xpense

/-- Calendar date with year, month, day — embeds Python `datetime.date`. -/
structure Date where
  year : Nat
  month : Nat
  day : Nat
  deriving DecidableEq, Repr

/-- Gregorian leap-year rule, as implemented by Python's `datetime`. -/
def isLeap (y : Nat) : Bool :=
  (y % 4 == 0 && y % 100 != 0) || y % 400 == 0

/-- Number of days in month `m` of year `y` (Gregorian calendar). -/
def daysInMonth (y m : Nat) : Nat :=
  if m = 2 then (if isLeap y then 29 else 28)
  else if m = 4 ∨ m = 6 ∨ m = 9 ∨ m = 11 then 30
  else 31

/-- Validity of a date: the range Python's `datetime.date` accepts. -/
def Date.valid (d : Date) : Prop :=
  1 ≤ d.year ∧ d.year ≤ 9999 ∧ 1 ≤ d.month ∧ d.month ≤ 12 ∧
    1 ≤ d.day ∧ d.day ≤ daysInMonth d.year d.month

instance (d : Date) : Decidable d.valid := by
  unfold Date.valid; infer_instance

/-- Strict comparison of dates (lexicographic on year, month, day), as Python
compares `date` objects. -/
def Date.blt (a b : Date) : Bool :=
  decide (a.year < b.year) ||
    (a.year == b.year && (decide (a.month < b.month) ||
      (a.month == b.month && decide (a.day < b.day))))

/-- Non-strict comparison of dates. -/
def Date.ble (a b : Date) : Bool :=
  Date.blt a b || a == b

/-- The previous calendar day — embeds `- timedelta(days=1)` as the source
uses it (on the first day of a month it steps to the last day of the
previous month). -/
def Date.predDay (d : Date) : Date :=
  if 1 < d.day then ⟨d.year, d.month, d.day - 1⟩
  else if 1 < d.month then ⟨d.year, d.month - 1, daysInMonth d.year (d.month - 1)⟩
  else ⟨d.year - 1, 12, 31⟩

/-- Embeds `month_bounds` (src/xpense.py lines 114–120): first day of `d`'s
month, and the day before the first day of the following month. -/
def month_bounds (d : Date) : Date × Date :=
  let start : Date := ⟨d.year, d.month, 1⟩
  let stop : Date :=
    if start.month = 12 then Date.predDay ⟨start.year + 1, 1, 1⟩
    else Date.predDay ⟨start.year, start.month + 1, 1⟩
  (start, stop)

/-- Embeds the `Expense` dataclass: date, amount, category, optional note. -/
structure Expense where
  when : Date
  amount : ℚ
  category : String
  note : String := ""
  deriving DecidableEq, Repr

/-- Lower-casing of a string character by character — embeds Python
`str.lower()` (on the ASCII letters the two agree). -/
def lowerStr (s : String) : String := ⟨s.data.map Char.toLower⟩

/-- The per-expense test of `filter_expenses`' loop body: an expense is kept
iff no `continue` fires.  Python truthiness: a `date` is always truthy, the
empty string is falsy, so `if category and ...` skips the category test when
`category` is `None` or `""`. -/
def keepExpense (start stop : Option Date) (category : Option String) (e : Expense) : Bool :=
  (match start with
   | none => true
   | some s => !(Date.blt e.when s)) &&
  (match stop with
   | none => true
   | some t => !(Date.blt t e.when)) &&
  (match category with
   | none => true
   | some c => c == "" || lowerStr e.category == lowerStr c)

/-- Embeds `filter_expenses` (src/xpense.py lines 122–132). -/
def filter_expenses (expenses : List Expense) (start stop : Option Date)
    (category : Option String) : List Expense :=
  expenses.filter (keepExpense start stop category)

/-- One step of `totals[e.category] += e.amount` on a `defaultdict(float)`
represented as an association list in insertion order. -/
def addAmount : List (String × ℚ) → String → ℚ → List (String × ℚ)
  | [], c, a => [(c, a)]
  | (c', t) :: rest, c, a =>
    if c' = c then (c', t + a) :: rest else (c', t) :: addAmount rest c a

/-- Embeds `summarize` (src/xpense.py lines 134–138): per-category totals of
the amounts, keyed by the exact category string. -/
def summarize (expenses : List Expense) : List (String × ℚ) :=
  expenses.foldl (fun acc e => addAmount acc e.category e.amount) []

/-- Insertion into a sorted list of strings (code-point order, as Python
compares strings). -/
def insertSorted (s : String) : List String → List String
  | [] => [s]
  | t :: rest => if s < t then s :: t :: rest else t :: insertSorted s rest

/-- Ascending sort of strings, embedding Python `sorted` on a set of keys. -/
def sortStrs (l : List String) : List String := l.foldr insertSorted []

/-- Embeds `sorted(set(list(totals.keys()) + list(budgets.keys())))` from
`cmd_report`: the category universe of the report. -/
def report_categories (totals budgets : List (String × ℚ)) : List String :=
  sortStrs ((totals.map Prod.fst ++ budgets.map Prod.fst).dedup)

/-- Embeds the row computation of `cmd_report` (src/xpense.py lines 253–288):
month-to-date filter, per-category totals, then for each category of the
universe a row (category, spent, budget, left) with
`left = budget - spent if budget else 0.0`.  The source appends exactly these
rows to `rows` — nothing else — before printing. -/
def report_rows (expenses : List Expense) (budgets : List (String × ℚ))
    (today : Date) : List (String × ℚ × ℚ × ℚ) :=
  let b := month_bounds today
  let ex := filter_expenses expenses (some b.1) (some b.2) none
  let totals := summarize ex
  let cats := report_categories totals budgets
  cats.map fun c =>
    let spent := (totals.lookup c).getD 0
    let budget := (budgets.lookup c).getD 0
    let left := if budget = 0 then 0 else budget - spent
    (c, spent, budget, left)

/-- Embeds the budget-alert computation of `cmd_add` (src/xpense.py lines
150–163): the exceeded test `mtd > budget` and the percentage
`(mtd / budget) * 100 if budget else 0`. -/
def budget_status (mtd budget : ℚ) : Bool × ℚ :=
  (decide (budget < mtd), if budget = 0 then 0 else mtd / budget * 100)

/-- Test for a decimal digit character, `'0'`–`'9'`. -/
def isDigitChar (c : Char) : Bool := 48 ≤ c.toNat && c.toNat ≤ 57

/-- Value of a big-endian string of digit characters. -/
def digitsVal (cs : List Char) : Nat :=
  cs.foldl (fun a c => 10 * a + (c.toNat - 48)) 0

/-- Parse a non-empty all-digit character string to a natural number; embeds
the digit-field matching of `strptime` and Python `int()` on the inputs this
program produces. -/
def parseNat (cs : List Char) : Option Nat :=
  if !cs.isEmpty && cs.all isDigitChar then some (digitsVal cs) else none

/-- Decimal digit characters of `n`, most significant first; embeds Python
`str` of a non-negative integer. -/
def natChars (n : Nat) : List Char :=
  if n = 0 then ['0']
  else ((Nat.digits 10 n).map fun d => Char.ofNat (48 + d)).reverse

/-- Left-pad with `'0'` to width `k` — embeds the zero padding of
`strftime("%Y-%m-%d")` and `f"{x:.2f}"`. -/
def padZeros (k : Nat) (cs : List Char) : List Char :=
  List.replicate (k - cs.length) '0' ++ cs

/-- Split a character list at the first occurrence of `sep`: the characters
before it, and (when `sep` occurs) the characters after it. -/
def breakAt (sep : Char) : List Char → List Char × Option (List Char)
  | [] => ([], none)
  | c :: rest =>
    if c = sep then ([], some rest)
    else
      let r := breakAt sep rest
      (c :: r.1, r.2)

/-- Embeds `when.strftime("%Y-%m-%d")` in `Expense.to_row`: zero-padded
year, month, day joined by dashes. -/
def formatDate (d : Date) : List Char :=
  padZeros 4 (natChars d.year) ++ '-' ::
    (padZeros 2 (natChars d.month) ++ '-' :: padZeros 2 (natChars d.day))

/-- Embeds `datetime.strptime(s, "%Y-%m-%d").date()` in `Expense.from_row`
and `parse_date`: three dash-separated all-digit fields (year at most four
digits, month and day at most two) naming a valid calendar date; `none`
models the `ValueError` that `strptime` raises otherwise. -/
def parseDateChars (cs : List Char) : Option Date :=
  match breakAt '-' cs with
  | (_, none) => none
  | (ys, some rest) =>
    match breakAt '-' rest with
    | (_, none) => none
    | (ms, some ds) =>
      match parseNat ys, parseNat ms, parseNat ds with
      | some y, some m, some dd =>
        if ys.length ≤ 4 ∧ ms.length ≤ 2 ∧ ds.length ≤ 2 ∧ Date.valid ⟨y, m, dd⟩
        then some ⟨y, m, dd⟩ else none
      | _, _, _ => none

/-- The whole number of cents printed for an amount: embeds the rounding to
two decimals of `f"{self.amount:.2f}"` in `Expense.to_row` (Python formats
the IEEE double with round-half-even; on the ℚ idealization we use `round`,
which agrees except at exact half-cent ties). -/
def cents (q : ℚ) : ℤ := round (q * 100)

/-- The digits of a non-negative amount of `m` cents, printed as
`units.cc`. -/
def amountBody (m : Nat) : List Char :=
  natChars (m / 100) ++ '.' :: padZeros 2 (natChars (m % 100))

/-- Embeds `f"{self.amount:.2f}"` in `Expense.to_row`. -/
def formatAmount (q : ℚ) : List Char :=
  if cents q < 0 then '-' :: amountBody (cents q).natAbs
  else amountBody (cents q).toNat

/-- Integer-dot-fraction decimal parse; with `parseAmount` this embeds
`float(row["amount"])` in `Expense.from_row` on the strings this program
writes (Python `float` also accepts exponents and bare dots, which the
writer never produces). -/
def parseAmountPos (cs : List Char) : Option ℚ :=
  match breakAt '.' cs with
  | (ip, none) => (parseNat ip).map (fun n => (n : ℚ))
  | (ip, some fp) =>
    match parseNat ip, parseNat fp with
    | some i, some f => some ((i : ℚ) + (f : ℚ) / 10 ^ fp.length)
    | _, _ => none

/-- Embeds `float(...)` including an optional leading minus sign. -/
def parseAmount (cs : List Char) : Option ℚ :=
  match cs with
  | [] => none
  | c :: rest =>
    if c = '-' then (parseAmountPos rest).map Neg.neg
    else parseAmountPos (c :: rest)

/-- A stored CSV data row as `csv.DictReader` hands it to `Expense.from_row`:
the four fields `date, amount, category, note`.  The csv module's
quoting/escaping round-trips arbitrary field text, so the file is modelled
at the level of already-unescaped rows. -/
structure Row where
  date : String
  amount : String
  category : String
  note : String
  deriving DecidableEq, Repr

/-- Embeds `Expense.to_row` (src/xpense.py lines 75–76). -/
def Expense.to_row (e : Expense) : Row :=
  { date := ⟨formatDate e.when⟩
    amount := ⟨formatAmount e.amount⟩
    category := e.category
    note := e.note }

/-- Embeds `Expense.from_row` (src/xpense.py lines 66–73); `none` models the
exception a bad date or amount raises. -/
def Expense.from_row (r : Row) : Option Expense := do
  let w ← parseDateChars r.date.data
  let a ← parseAmount r.amount.data
  pure { when := w, amount := a, category := r.category, note := r.note }

/-- Embeds `load_expenses` (src/xpense.py lines 79–89): parse every row,
silently skipping the ones that fail. -/
def load_expenses (file : List Row) : List Expense :=
  file.filterMap Expense.from_row

/-- Embeds `append_expense` (src/xpense.py lines 91–95): append exactly one
row at the end of the store. -/
def append_expense (file : List Row) (e : Expense) : List Row :=
  file ++ [e.to_row]

/-- Embeds `parse_date` (src/xpense.py lines 109–112): `None` gives today,
otherwise the literal is parsed with the fixed `%Y-%m-%d` pattern; the
`ValueError` raised on a malformed or invalid date is modelled as
`Except.error` — nothing in the program catches it. -/
def parse_date (today : Date) : Option String → Except Unit Date
  | none => .ok today
  | some s =>
    match parseDateChars s.data with
    | some d => .ok d
    | none => .error ()

/-- Embeds the `--month` handling of `cmd_list` (src/xpense.py lines
169–175): `"this"` gives this month's bounds; otherwise the argument is
split at a dash into exactly two integer fields and `date(int(y), int(m), 1)`
is built, raising (= `.error`) when the split or the conversion or the date
construction fails. -/
def parse_month (today : Date) (m : String) : Except Unit (Date × Date) :=
  if m = "this" then .ok (month_bounds today)
  else
    match breakAt '-' m.data with
    | (_, none) => .error ()
    | (ys, some ms) =>
      if ms.contains '-' then .error ()
      else
        match parseNat ys, parseNat ms with
        | some y, some mo =>
          if Date.valid ⟨y, mo, 1⟩ then .ok (⟨y, mo, 1⟩, (month_bounds ⟨y, mo, 1⟩).2)
          else .error ()
        | _, _ => .error ()

/-- Embeds the date-bound resolution of `cmd_list` (src/xpense.py lines
165–176): `--start`/`--end` are parsed when truthy (non-empty), then
`--month` overrides both bounds.  A parse failure propagates out of the
command unhandled (`.error`). -/
def cmd_list_bounds (today : Date) (startArg stopArg monthArg : Option String) :
    Except Unit (Option Date × Option Date) := do
  let start0 : Option Date ←
    match startArg with
    | some s => if s = "" then pure none else (parse_date today (some s)).map some
    | none => pure none
  let stop0 : Option Date ←
    match stopArg with
    | some s => if s = "" then pure none else (parse_date today (some s)).map some
    | none => pure none
  match monthArg with
  | some m =>
    if m = "" then pure (start0, stop0)
    else do
      let b ← parse_month today m
      pure (some b.1, some b.2)
  | none => pure (start0, stop0)

example : month_bounds ⟨2024, 2, 17⟩ = (⟨2024, 2, 1⟩, ⟨2024, 2, 29⟩) := by decide

example : month_bounds ⟨2024, 12, 5⟩ = (⟨2024, 12, 1⟩, ⟨2024, 12, 31⟩) := by decide

example :
    report_rows [⟨⟨2025, 6, 10⟩, 5, "food", ""⟩] [("food", 0)] ⟨2025, 6, 10⟩ =
      [("food", 5, 0, 0)] := by decide

theorem map_fst_tag {α β : Type _} (l : List α) (g : α → β) :
    l.map (Prod.fst ∘ fun c => (c, g c)) = l := by
  induction l with
  | nil => rfl
  | cons a rest ih => simp [ih]

theorem mem_insertSorted {x s : String} {l : List String} :
    x ∈ insertSorted s l ↔ x = s ∨ x ∈ l := by
  induction l with
  | nil => simp [insertSorted]
  | cons t rest ih =>
    by_cases h : s < t
    · simp [insertSorted, h]
    · simp [insertSorted, h, ih]
      tauto

theorem mem_sortStrs {x : String} {l : List String} :
    x ∈ sortStrs l ↔ x ∈ l := by
  induction l with
  | nil => simp [sortStrs]
  | cons s rest ih =>
    simp only [sortStrs, List.foldr_cons] at ih ⊢
    rw [mem_insertSorted, ih, List.mem_cons]

theorem mem_report_categories {c : String} {totals budgets : List (String × ℚ)} :
    c ∈ report_categories totals budgets ↔
      c ∈ totals.map Prod.fst ∨ c ∈ budgets.map Prod.fst := by
  simp [report_categories, mem_sortStrs]

/-- Claim C10: calling `filter_expenses` with the empty string as the category
argument behaves exactly as if no category filter were supplied — every
transaction passes the category test — because `if category and ...` treats
the empty string as falsy. -/
theorem c10_empty_category_no_filter (es : List Expense) (start stop : Option Date) :
    filter_expenses es start stop (some "") = filter_expenses es start stop none := by
  unfold filter_expenses
  apply List.filter_congr
  intro e _
  simp [keepExpense]

/-- Claim C8: the budget alert reports EXCEEDED exactly when month-to-date
spend is strictly greater than the budget, and the percentage is
`mtd / budget * 100` guarded to be exactly `0` when the budget is `0`. -/
theorem c8_budget_status (mtd budget : ℚ) :
    ((budget_status mtd budget).1 = true ↔ budget < mtd) ∧
      (budget_status mtd budget).2 = (if budget = 0 then 0 else mtd / budget * 100) := by
  exact ⟨by simp [budget_status], rfl⟩

/-- Claim C1 counterexample: on a store with a single June expense of 5 in
category "food" and no budgets, the report consists of exactly the one
per-category row `("food", 5, 0, 0)` — there is no additional totals row
(the claim would require a second row `(total, 5, 0, 5 - 0)` here). -/
theorem c1_counterexample :
    report_rows [⟨⟨2025, 6, 10⟩, 5, "food", ""⟩] [] ⟨2025, 6, 10⟩ =
        [("food", 5, 0, 0)] ∧
      (report_rows [⟨⟨2025, 6, 10⟩, 5, "food", ""⟩] [] ⟨2025, 6, 10⟩).length = 1 := by
  constructor <;> decide

/-- Claim C1 (amended): the report emits exactly one row per category of the
category universe (categories with month-to-date spend, union categories with
a budget entry, sorted ascending) and no totals row: the list of first
components of the rows is exactly the category universe. -/
theorem c1_one_row_per_category (es : List Expense) (bs : List (String × ℚ)) (t : Date) :
    (report_rows es bs t).map Prod.fst =
      report_categories
        (summarize (filter_expenses es (some (month_bounds t).1)
          (some (month_bounds t).2) none)) bs ∧
    ∀ c : String,
      c ∈ (report_rows es bs t).map Prod.fst ↔
        c ∈ (summarize (filter_expenses es (some (month_bounds t).1)
              (some (month_bounds t).2) none)).map Prod.fst ∨
          c ∈ bs.map Prod.fst := by
  have hmap : (report_rows es bs t).map Prod.fst =
      report_categories
        (summarize (filter_expenses es (some (month_bounds t).1)
          (some (month_bounds t).2) none)) bs := by
    unfold report_rows
    simp only [List.map_map]
    exact map_fst_tag _ _
  refine ⟨hmap, fun c => ?_⟩
  rw [hmap, mem_report_categories]

/-- Claim C2 counterexample: with a budget entry of amount `0` for "food" and
month-to-date spend `5`, the report row for "food" carries remaining `0`,
whereas the claim demands `budget − spent = 0 − 5 = −5` whenever a budget
entry exists (including an entry whose amount is 0). -/
theorem c2_counterexample :
    report_rows [⟨⟨2025, 6, 10⟩, 5, "food", ""⟩] [("food", 0)] ⟨2025, 6, 10⟩ =
        [("food", 5, 0, 0)] ∧
      (0 : ℚ) - 5 ≠ 0 := by
  constructor
  · decide
  · norm_num

/-- Claim C2 (amended): in every report row, the budget column is
`budgets.get(c, 0)`, and the remaining column equals `budget − spent` when the
category's budget value is nonzero and `0` when the budget entry is absent or
has amount `0` (Python `budget - spent if budget else 0.0`). -/
theorem c2_remaining_policy (es : List Expense) (bs : List (String × ℚ)) (t : Date)
    (c : String) (spent budget left : ℚ)
    (h : (c, spent, budget, left) ∈ report_rows es bs t) :
    budget = (bs.lookup c).getD 0 ∧
      left = (if budget = 0 then 0 else budget - spent) := by
  unfold report_rows at h
  simp only [List.mem_map] at h
  obtain ⟨c', _, heq⟩ := h
  simp only [Prod.mk.injEq] at heq
  obtain ⟨h1, h2, h3, h4⟩ := heq
  subst h1
  refine ⟨h3.symm, ?_⟩
  rw [← h4, h2, h3]

theorem c2_remaining_policy_witness :
    (10 : ℚ) = (([("food", (10 : ℚ))].lookup "food").getD 0 : ℚ) ∧
      (5 : ℚ) = (if (10 : ℚ) = 0 then 0 else 10 - 5) :=
  c2_remaining_policy [⟨⟨2025, 6, 10⟩, 5, "food", ""⟩] [("food", 10)] ⟨2025, 6, 10⟩
    "food" 5 10 5 (by
      have h : report_rows [⟨⟨2025, 6, 10⟩, 5, "food", ""⟩] [("food", 10)]
          ⟨2025, 6, 10⟩ = [("food", 5, 10, 5)] := by
        norm_num [report_rows, report_categories, summarize, filter_expenses,
          keepExpense, month_bounds, addAmount, sortStrs, insertSorted,
          Date.blt, Date.predDay, daysInMonth, isLeap, lowerStr]
      rw [h]
      exact List.Mem.head _)

/-- Claim C4 counterexample: with the category filter present but equal to the
empty string, the claim demands that only transactions whose category equals
`""` case-insensitively are kept (here: none), but the code keeps every
transaction, because the empty string is falsy in `if category and ...`. -/
theorem c4_counterexample :
    filter_expenses [⟨⟨2025, 6, 10⟩, 5, "food", ""⟩] none none (some "") =
        [⟨⟨2025, 6, 10⟩, 5, "food", ""⟩] ∧
      lowerStr "food" ≠ lowerStr "" := by
  constructor
  · decide
  · decide

/-- Claim C4 (amended): `filter_expenses` keeps a transaction iff (start
absent or `when ≥ start`) and (end absent or `when ≤ end`) and (category
absent **or empty** or case-insensitively equal to the transaction's
category); the result is a subsequence of the input preserving relative
order, and with all three filters absent the result is the input itself. -/
theorem c4_filter_characterization (es : List Expense) (start stop : Option Date)
    (cat : Option String) :
    (filter_expenses es start stop cat).Sublist es ∧
    (∀ x : Expense, x ∈ es →
      (x ∈ filter_expenses es start stop cat ↔
        (∀ s, start = some s → Date.blt x.when s = false) ∧
        (∀ t, stop = some t → Date.blt t x.when = false) ∧
        (∀ c, cat = some c → c ≠ "" → lowerStr x.category = lowerStr c))) ∧
    filter_expenses es none none none = es := by
  refine ⟨List.filter_sublist es, fun x hx => ?_, ?_⟩
  · rw [filter_expenses, List.mem_filter]
    simp only [hx, true_and]
    unfold keepExpense
    rcases cat with _ | c
    · rcases start with _ | s <;> rcases stop with _ | t <;>
        simp [Bool.not_eq_true', and_assoc]
    · by_cases hc : c = "" <;>
        rcases start with _ | s <;> rcases stop with _ | t <;>
          simp [Bool.not_eq_true', and_assoc, hc]
  · unfold filter_expenses
    have h : ∀ e : Expense, keepExpense none none none e = true := fun e => rfl
    simp [h]

theorem lookup_addAmount_self (acc : List (String × ℚ)) (c : String) (a : ℚ) :
    (addAmount acc c a).lookup c = some ((acc.lookup c).getD 0 + a) := by
  induction acc with
  | nil => simp [addAmount, List.lookup]
  | cons p rest ih =>
    obtain ⟨c', t⟩ := p
    by_cases h : c' = c
    · subst h
      simp [addAmount, List.lookup]
    · have hbe : (c == c') = false := beq_eq_false_iff_ne.mpr (Ne.symm h)
      simp [addAmount, h, List.lookup, hbe, ih]

theorem lookup_addAmount_ne (acc : List (String × ℚ)) (c x : String) (a : ℚ)
    (h : x ≠ c) : (addAmount acc c a).lookup x = acc.lookup x := by
  induction acc with
  | nil =>
    have hbe : (x == c) = false := beq_eq_false_iff_ne.mpr h
    simp [addAmount, List.lookup, hbe]
  | cons p rest ih =>
    obtain ⟨c', t⟩ := p
    by_cases h' : c' = c
    · subst h'
      have hbe : (x == c') = false := beq_eq_false_iff_ne.mpr h
      simp [addAmount, List.lookup, hbe]
    · simp [addAmount, h', List.lookup, ih]

theorem sum_snd_addAmount (acc : List (String × ℚ)) (c : String) (a : ℚ) :
    ((addAmount acc c a).map Prod.snd).sum = (acc.map Prod.snd).sum + a := by
  induction acc with
  | nil => simp [addAmount]
  | cons p rest ih =>
    obtain ⟨c', t⟩ := p
    by_cases h : c' = c
    · subst h
      simp [addAmount]
      ring
    · simp [addAmount, h, ih]
      ring

theorem filter_sum_zero (p : Expense → Bool) (l : List Expense)
    (h : l.any p = false) : ((l.filter p).map Expense.amount).sum = 0 := by
  rw [List.any_eq_false] at h
  rw [List.filter_eq_nil_iff.mpr h]
  rfl

theorem summarize_foldl_lookup (es : List Expense) (acc : List (String × ℚ))
    (c : String) :
    (es.foldl (fun acc e => addAmount acc e.category e.amount) acc).lookup c =
      if es.any (fun e => e.category == c) then
        some ((acc.lookup c).getD 0 +
          ((es.filter fun e => e.category == c).map Expense.amount).sum)
      else acc.lookup c := by
  induction es generalizing acc with
  | nil => simp
  | cons e rest ih =>
    simp only [List.foldl_cons]
    rw [ih]
    by_cases hc : e.category = c
    · have hbe : (e.category == c) = true := beq_iff_eq.mpr hc
      rw [hc, lookup_addAmount_self]
      by_cases hr : rest.any (fun e => e.category == c) = true
      · simp [List.any_cons, List.filter_cons, hbe, hr]
        ring
      · simp only [Bool.not_eq_true] at hr
        simp [List.any_cons, List.filter_cons, hbe, hr, filter_sum_zero _ _ hr]
    · have hbe : (e.category == c) = false := beq_eq_false_iff_ne.mpr hc
      rw [lookup_addAmount_ne acc e.category c e.amount (Ne.symm hc)]
      simp [List.any_cons, List.filter_cons, hbe]

theorem summarize_foldl_sum (es : List Expense) (acc : List (String × ℚ)) :
    ((es.foldl (fun acc e => addAmount acc e.category e.amount) acc).map
        Prod.snd).sum =
      (acc.map Prod.snd).sum + (es.map Expense.amount).sum := by
  induction es generalizing acc with
  | nil => simp
  | cons e rest ih =>
    simp only [List.foldl_cons]
    rw [ih, sum_snd_addAmount]
    simp only [List.map_cons, List.sum_cons]
    ring

/-- Claim C5: `summarize` maps each exact (case-sensitive) category string
occurring in the input to the sum of the amounts of exactly the transactions
bearing that category string, has no entry for any string not occurring as a
category in the input, and the sum of all its values equals the sum of all
amounts in the input. -/
theorem c5_summarize (es : List Expense) :
    (∀ c : String,
      (summarize es).lookup c =
        if es.any (fun e => e.category == c) then
          some (((es.filter fun e => e.category == c).map Expense.amount).sum)
        else none) ∧
    ((summarize es).map Prod.snd).sum = (es.map Expense.amount).sum := by
  constructor
  · intro c
    unfold summarize
    rw [summarize_foldl_lookup]
    simp
  · unfold summarize
    rw [summarize_foldl_sum]
    simp

/-- Claim C6: `month_bounds d` returns the first day of `d`'s month and the
last calendar day of that same month (December rolls over to January of the
next year before stepping back one day; month lengths, including leap-year
February, come out right), and it is idempotent: every date lying between the
returned bounds yields the same bounds again. -/
theorem c6_month_bounds (d : Date) (h : d.valid) :
    (month_bounds d).1 = ⟨d.year, d.month, 1⟩ ∧
    (month_bounds d).2 = ⟨d.year, d.month, daysInMonth d.year d.month⟩ ∧
    ∀ d' : Date, Date.ble (month_bounds d).1 d' = true →
      Date.ble d' (month_bounds d).2 = true →
        month_bounds d' = month_bounds d := by
  obtain ⟨hy1, hy2, hm1, hm2, hd1, hd2⟩ := h
  have hfst : (month_bounds d).1 = ⟨d.year, d.month, 1⟩ := rfl
  have hsnd : (month_bounds d).2 = ⟨d.year, d.month, daysInMonth d.year d.month⟩ := by
    by_cases h12 : d.month = 12
    · simp [month_bounds, h12, Date.predDay, daysInMonth]
    · have hlt : 1 < d.month + 1 := by omega
      simp [month_bounds, h12, Date.predDay, hlt, daysInMonth]
  refine ⟨hfst, hsnd, fun d' hle1 hle2 => ?_⟩
  rw [hfst] at hle1
  rw [hsnd] at hle2
  obtain ⟨y', m', dd⟩ := d'
  simp only [Date.ble, Date.blt, Bool.or_eq_true, Bool.and_eq_true,
    decide_eq_true_eq, beq_iff_eq, Date.mk.injEq] at hle1 hle2
  have hym : y' = d.year ∧ m' = d.month := by omega
  obtain ⟨hy, hm⟩ := hym
  subst hy
  subst hm
  rfl

theorem c6_month_bounds_witness :
    (month_bounds ⟨2024, 2, 17⟩).1 = ⟨2024, 2, 1⟩ ∧
    (month_bounds ⟨2024, 2, 17⟩).2 = ⟨2024, 2, daysInMonth 2024 2⟩ ∧
    ∀ d' : Date, Date.ble (month_bounds ⟨2024, 2, 17⟩).1 d' = true →
      Date.ble d' (month_bounds ⟨2024, 2, 17⟩).2 = true →
        month_bounds d' = month_bounds ⟨2024, 2, 17⟩ :=
  c6_month_bounds ⟨2024, 2, 17⟩ (by decide)

theorem isEmpty_false_of_ne_nil {α : Type _} {cs : List α} (h : cs ≠ []) :
    cs.isEmpty = false := by
  cases cs
  · exact absurd rfl h
  · rfl

theorem toNat_ofNat_digit (d : Nat) (h : d < 10) :
    (Char.ofNat (48 + d)).toNat = 48 + d := by
  interval_cases d <;> decide

theorem isDigitChar_ofNat_digit (d : Nat) (h : d < 10) :
    isDigitChar (Char.ofNat (48 + d)) = true := by
  interval_cases d <;> decide

theorem digit_ne_dash {c : Char} (h : isDigitChar c = true) : c ≠ '-' := by
  intro hc
  subst hc
  exact absurd h (by decide)

theorem digit_ne_dot {c : Char} (h : isDigitChar c = true) : c ≠ '.' := by
  intro hc
  subst hc
  exact absurd h (by decide)

theorem natChars_all_digits (n : Nat) : (natChars n).all isDigitChar = true := by
  unfold natChars
  by_cases hn : n = 0
  · subst hn
    decide
  · simp only [hn, if_false, List.all_eq_true, List.mem_reverse, List.mem_map]
    rintro c ⟨d, hd, rfl⟩
    exact isDigitChar_ofNat_digit d (Nat.digits_lt_base (by norm_num) hd)

theorem natChars_ne_nil (n : Nat) : natChars n ≠ [] := by
  unfold natChars
  by_cases hn : n = 0
  · simp [hn]
  · simp [hn, Nat.digits_ne_nil_iff_ne_zero]

theorem all_digits_padZeros (k : Nat) (cs : List Char)
    (h : cs.all isDigitChar = true) : (padZeros k cs).all isDigitChar = true := by
  rw [padZeros, List.all_append, h]
  simp only [Bool.and_true, List.all_eq_true]
  intro c hc
  rw [List.eq_of_mem_replicate hc]
  decide

theorem padZeros_ne_nil (k : Nat) (cs : List Char) (h : cs ≠ []) :
    padZeros k cs ≠ [] := by
  rw [padZeros]
  intro hcon
  exact h (List.append_eq_nil.mp hcon).2

theorem padZeros_length (k : Nat) (cs : List Char) :
    (padZeros k cs).length = max k cs.length := by
  simp [padZeros]
  omega

theorem digitsVal_append_digit (cs : List Char) (c : Char) :
    digitsVal (cs ++ [c]) = 10 * digitsVal cs + (c.toNat - 48) := by
  simp [digitsVal, List.foldl_append]

theorem digitsVal_revmap (L : List Nat) (h : ∀ d ∈ L, d < 10) :
    digitsVal ((L.map fun d => Char.ofNat (48 + d)).reverse) = Nat.ofDigits 10 L := by
  induction L with
  | nil => simp [digitsVal, Nat.ofDigits]
  | cons d rest ih =>
    simp only [List.map_cons, List.reverse_cons]
    rw [digitsVal_append_digit, ih (fun x hx => h x (List.mem_cons_of_mem _ hx))]
    have hd : d < 10 := h d (List.mem_cons_self _ _)
    rw [toNat_ofNat_digit d hd, Nat.ofDigits_cons]
    omega

theorem digitsVal_replicate_zero (k : Nat) (cs : List Char) :
    digitsVal (List.replicate k '0' ++ cs) = digitsVal cs := by
  induction k with
  | zero => rfl
  | succ n ih =>
    simp only [List.replicate_succ, List.cons_append, digitsVal, List.foldl_cons]
    exact ih

theorem digitsVal_natChars (n : Nat) : digitsVal (natChars n) = n := by
  unfold natChars
  by_cases hn : n = 0
  · simp [hn]
    decide
  · simp only [hn, if_false]
    rw [digitsVal_revmap _ (fun d hd => Nat.digits_lt_base (by norm_num) hd)]
    exact Nat.ofDigits_digits 10 n

theorem parseNat_padZeros_natChars (k n : Nat) :
    parseNat (padZeros k (natChars n)) = some n := by
  have h1 : (padZeros k (natChars n)).isEmpty = false :=
    isEmpty_false_of_ne_nil (padZeros_ne_nil _ _ (natChars_ne_nil n))
  have h2 : (padZeros k (natChars n)).all isDigitChar = true :=
    all_digits_padZeros k _ (natChars_all_digits n)
  rw [parseNat, h1, h2]
  simp only [Bool.not_false, Bool.and_self, if_true]
  rw [padZeros, digitsVal_replicate_zero, digitsVal_natChars]

theorem padZeros_zero (cs : List Char) : padZeros 0 cs = cs := by
  simp [padZeros]

theorem parseNat_natChars (n : Nat) : parseNat (natChars n) = some n := by
  have := parseNat_padZeros_natChars 0 n
  rwa [padZeros_zero] at this

theorem digits_length_le (n k : Nat) (h : n < 10 ^ k) :
    (Nat.digits 10 n).length ≤ k := by
  by_cases hn : n = 0
  · subst hn
    simp
  · by_contra hgt
    push_neg at hgt
    have h1 : (10 : ℕ) ^ (Nat.digits 10 n).length ≤ 10 * n :=
      Nat.base_pow_length_digits_le 10 n (by norm_num) hn
    have h2 : (10 : ℕ) ^ (k + 1) ≤ 10 ^ (Nat.digits 10 n).length :=
      Nat.pow_le_pow_right (by norm_num) hgt
    have h3 : (10 : ℕ) ^ (k + 1) = 10 * 10 ^ k := by ring
    omega

theorem natChars_length_le (n k : Nat) (hk : 1 ≤ k) (h : n < 10 ^ k) :
    (natChars n).length ≤ k := by
  unfold natChars
  by_cases hn : n = 0
  · simp [hn]
    omega
  · simp only [hn, if_false, List.length_reverse, List.length_map]
    exact digits_length_le n k h

theorem daysInMonth_le_31 (y m : Nat) : daysInMonth y m ≤ 31 := by
  unfold daysInMonth
  split
  · split <;> omega
  · split <;> omega

theorem breakAt_append (sep : Char) (A B : List Char) (h : ∀ c ∈ A, c ≠ sep) :
    breakAt sep (A ++ sep :: B) = (A, some B) := by
  induction A with
  | nil => simp [breakAt]
  | cons a rest ih =>
    have ha : a ≠ sep := h a (List.mem_cons_self _ _)
    simp [breakAt, ha, ih (fun c hc => h c (List.mem_cons_of_mem _ hc))]

theorem parseDateChars_formatDate (d : Date) (h : d.valid) :
    parseDateChars (formatDate d) = some d := by
  obtain ⟨hy1, hy2, hm1, hm2, hd1, hd2⟩ := h
  have hnody : ∀ c ∈ padZeros 4 (natChars d.year), c ≠ '-' := fun c hc =>
    digit_ne_dash (List.all_eq_true.mp
      (all_digits_padZeros 4 _ (natChars_all_digits _)) c hc)
  have hnodm : ∀ c ∈ padZeros 2 (natChars d.month), c ≠ '-' := fun c hc =>
    digit_ne_dash (List.all_eq_true.mp
      (all_digits_padZeros 2 _ (natChars_all_digits _)) c hc)
  have hbr1 : breakAt '-' (formatDate d) =
      (padZeros 4 (natChars d.year),
        some (padZeros 2 (natChars d.month) ++ '-' :: padZeros 2 (natChars d.day))) :=
    breakAt_append '-' _ _ hnody
  have hbr2 : breakAt '-'
        (padZeros 2 (natChars d.month) ++ '-' :: padZeros 2 (natChars d.day)) =
      (padZeros 2 (natChars d.month), some (padZeros 2 (natChars d.day))) :=
    breakAt_append '-' _ _ hnodm
  have hly : (padZeros 4 (natChars d.year)).length ≤ 4 := by
    rw [padZeros_length]
    have := natChars_length_le d.year 4 (by norm_num) (by norm_num; omega)
    omega
  have hlm : (padZeros 2 (natChars d.month)).length ≤ 2 := by
    rw [padZeros_length]
    have := natChars_length_le d.month 2 (by norm_num) (by norm_num; omega)
    omega
  have hld : (padZeros 2 (natChars d.day)).length ≤ 2 := by
    rw [padZeros_length]
    have h31 := daysInMonth_le_31 d.year d.month
    have := natChars_length_le d.day 2 (by norm_num) (by norm_num; omega)
    omega
  have hvalid : Date.valid ⟨d.year, d.month, d.day⟩ :=
    ⟨hy1, hy2, hm1, hm2, hd1, hd2⟩
  simp only [parseDateChars, hbr1, hbr2, parseNat_padZeros_natChars]
  rw [if_pos ⟨hly, hlm, hld, hvalid⟩]

theorem parseAmountPos_amountBody (m : Nat) :
    parseAmountPos (amountBody m) = some ((m : ℚ) / 100) := by
  have hnod : ∀ c ∈ natChars (m / 100), c ≠ '.' := fun c hc =>
    digit_ne_dot (List.all_eq_true.mp (natChars_all_digits _) c hc)
  have hbr : breakAt '.' (amountBody m) =
      (natChars (m / 100), some (padZeros 2 (natChars (m % 100)))) :=
    breakAt_append '.' _ _ hnod
  have hlen : (padZeros 2 (natChars (m % 100))).length = 2 := by
    rw [padZeros_length]
    have := natChars_length_le (m % 100) 2 (by norm_num) (by norm_num; omega)
    omega
  simp only [parseAmountPos, hbr, parseNat_natChars, parseNat_padZeros_natChars, hlen]
  congr 1
  have hq : ((m / 100 : ℕ) : ℚ) + ((m % 100 : ℕ) : ℚ) / 100 = (m : ℚ) / 100 := by
    rw [eq_div_iff (show (100 : ℚ) ≠ 0 by norm_num), add_mul,
      div_mul_cancel₀ _ (show (100 : ℚ) ≠ 0 by norm_num)]
    exact_mod_cast (by omega : m / 100 * 100 + m % 100 = m)
  rw [show ((10 : ℚ) ^ 2) = 100 by norm_num, hq]

theorem parseAmount_amountBody (m : Nat) :
    parseAmount (amountBody m) = some ((m : ℚ) / 100) := by
  obtain ⟨hd, tl, hht⟩ : ∃ hd tl, natChars (m / 100) = hd :: tl := by
    cases hcs : natChars (m / 100) with
    | nil => exact absurd hcs (natChars_ne_nil _)
    | cons a b => exact ⟨a, b, rfl⟩
  have hhd : isDigitChar hd = true := by
    have h := natChars_all_digits (m / 100)
    rw [hht, List.all_cons, Bool.and_eq_true] at h
    exact h.1
  have hbody : amountBody m =
      hd :: (tl ++ '.' :: padZeros 2 (natChars (m % 100))) := by
    rw [amountBody, hht]
    rfl
  rw [hbody]
  simp only [parseAmount, if_neg (digit_ne_dash hhd)]
  rw [← List.cons_append, ← hht]
  exact parseAmountPos_amountBody m

theorem parseAmount_formatAmount (q : ℚ) (h : 0 ≤ cents q) :
    parseAmount (formatAmount q) = some ((cents q : ℚ) / 100) := by
  rw [formatAmount, if_neg (by omega : ¬ cents q < 0)]
  rw [parseAmount_amountBody]
  have hcast : (((cents q).toNat : ℕ) : ℚ) = ((cents q : ℤ) : ℚ) := by
    exact_mod_cast congrArg (fun z : ℤ => (z : ℚ)) (Int.toNat_of_nonneg h)
  rw [hcast]

theorem cents_nonneg (q : ℚ) (h : 0 ≤ q) : 0 ≤ cents q := by
  rw [cents, round_eq]
  apply Int.le_floor.mpr
  have h100 : 0 ≤ q * 100 := mul_nonneg h (by norm_num)
  push_cast
  linarith

theorem cents_of_exact (q : ℚ) (n : ℕ) (h : q * 100 = n) : cents q = n := by
  rw [cents, h, round_natCast]

theorem from_row_to_row (e : Expense) (h1 : e.when.valid) (h2 : 0 ≤ e.amount) :
    Expense.from_row e.to_row =
      some { e with amount := (cents e.amount : ℚ) / 100 } := by
  unfold Expense.from_row Expense.to_row
  simp only [parseDateChars_formatDate e.when h1,
    parseAmount_formatAmount e.amount (cents_nonneg e.amount h2),
    Option.bind_eq_bind, Option.some_bind]
  rfl

/-- Claim C7: appending a valid transaction to the store and reloading yields
a record field-for-field equal to it — the date, the category and the note
verbatim, and the amount as rounded to 2 decimals by the `%.2f` formatting;
in particular a transaction whose amount already is a whole number of cents
comes back exactly equal. -/
theorem c7_roundtrip (file : List Row) (e : Expense) (h1 : e.when.valid)
    (h2 : 0 ≤ e.amount) :
    load_expenses (append_expense file e) =
      load_expenses file ++ [{ e with amount := (cents e.amount : ℚ) / 100 }] ∧
    ((∃ n : ℕ, e.amount * 100 = n) →
      load_expenses (append_expense file e) = load_expenses file ++ [e]) := by
  have key := from_row_to_row e h1 h2
  have hmain : load_expenses (append_expense file e) =
      load_expenses file ++ [{ e with amount := (cents e.amount : ℚ) / 100 }] := by
    unfold load_expenses append_expense
    rw [List.filterMap_append]
    congr 1
    simp [List.filterMap, key]
  refine ⟨hmain, ?_⟩
  rintro ⟨n, hn⟩
  rw [hmain]
  have hamt : (cents e.amount : ℚ) / 100 = e.amount := by
    rw [cents_of_exact e.amount n hn, eq_comm,
      eq_div_iff (show (100 : ℚ) ≠ 0 by norm_num)]
    exact hn
  rw [hamt]

theorem c7_roundtrip_witness :
    (load_expenses (append_expense []
        ⟨⟨2025, 6, 1⟩, 25 / 2, "food", "lunch"⟩) =
      load_expenses [] ++
        [{ (⟨⟨2025, 6, 1⟩, 25 / 2, "food", "lunch"⟩ : Expense) with
            amount := (cents (25 / 2) : ℚ) / 100 }] ∧
    ((∃ n : ℕ, (25 / 2 : ℚ) * 100 = n) →
      load_expenses (append_expense []
          ⟨⟨2025, 6, 1⟩, 25 / 2, "food", "lunch"⟩) =
        load_expenses [] ++ [⟨⟨2025, 6, 1⟩, 25 / 2, "food", "lunch"⟩])) :=
  c7_roundtrip [] ⟨⟨2025, 6, 1⟩, 25 / 2, "food", "lunch"⟩ (by decide) (by norm_num)

/-- Claim C9 counterexample: on the malformed date `"2025-99-99"` the parse
raises (`.error`), and the error propagates out of `cmd_list`'s date
resolution uncaught — no handler exists in `cmd_list` or `main`, so the
program aborts with an unhandled traceback rather than the handled
user-facing error outcome the claim describes. -/
theorem c9_counterexample :
    parse_date ⟨2025, 6, 10⟩ (some "2025-99-99") = .error () ∧
      cmd_list_bounds ⟨2025, 6, 10⟩ (some "2025-99-99") none none = .error () := by
  constructor
  · rfl
  · rfl

/-- Claim C9 (amended): a user-supplied `--start` date string that does not
parse under the fixed `YYYY-MM-DD` pattern (or names an invalid calendar
date) makes the date resolution of `cmd_list` propagate the raised
`ValueError` out of the command unhandled — the program crashes with a
traceback aborting the whole invocation; it does not produce a handled
user-facing error outcome. -/
theorem c9_error_propagates (today : Date) (s : String)
    (stopArg monthArg : Option String)
    (h1 : parseDateChars s.data = none) (h2 : s ≠ "") :
    cmd_list_bounds today (some s) stopArg monthArg = .error () := by
  unfold cmd_list_bounds parse_date
  simp [h1, h2, Except.map]
  rfl

theorem c9_error_propagates_witness :
    cmd_list_bounds ⟨2025, 6, 10⟩ (some "not-a-date") none none = .error () :=
  c9_error_propagates ⟨2025, 6, 10⟩ "not-a-date" none none (by rfl) (by decide)

end Xpense
